import Mathlib

/-!
Verification of the Tabular Extractor (`src/core/excel_utils.py`) of the
`marketing_tool` repository.

The component under study is `extract_sheet_text` together with its nested
helpers `_stringify`, `_col_letter` and `_dataframe_to_markdown_no_header`.
The functions below are a shallow embedding of that Python code, operating on
a grid of cell values as produced by `pandas.read_excel(..., header=None)`.

Modelling conventions:
- A cell value is `CellVal`: a Python string, an int, a float, or `blank`
  (Python `None` / a missing cell).  Missing cells read by pandas surface as
  float NaN; both `blank` and `PyFloat.nan` behave identically in every code
  path of the source (`pd.notna` false, `_stringify` returns `""`).
- A Python float is observed by the source only through `math.isnan`,
  `math.isfinite`, `float.is_integer`, `int(value)` and `str(value)`.
  `PyFloat` records exactly those observables: `intVal n s` is a finite float
  with integral value `n` and display string `s` (e.g. `4.0` is
  `intVal 4 "4.0"`); `fracVal s` is a finite non-integer float with display
  string `s` (e.g. `4.5` is `fracVal "4.5"`); `nan`, `inf`, `ninf` are the
  non-finite floats, displaying as "nan", "inf", "-inf".
- Python `str(int)` (decimal rendering) is modelled by `pyIntRepr`.
- Python `str.strip()` is modelled over the ASCII whitespace characters
  Python strips.
- A pandas column has a numeric dtype exactly when it is non-empty and every
  entry is an int, a float, or missing; otherwise it is stored as `object`
  dtype and `is_numeric_dtype` is false.
-/

/-- Observable model of a Python float; see the header comment. -/
inductive PyFloat where
  | nan : PyFloat
  | inf : PyFloat
  | ninf : PyFloat
  | intVal (n : Int) (s : String) : PyFloat
  | fracVal (s : String) : PyFloat
deriving DecidableEq, Repr

/-- A spreadsheet cell value as produced by `pandas.read_excel`. -/
inductive CellVal where
  | blank : CellVal
  | str (s : String) : CellVal
  | int (n : Int) : CellVal
  | float (f : PyFloat) : CellVal
deriving DecidableEq, Repr

-- Decimal digits of a natural number, most significant first; the fuel
-- argument makes the `n / 10` recursion structural, and `n + 1` units of
-- fuel always suffice.
def natDigsGo : Nat → Nat → List Char
  | 0, _ => []
  | fuel + 1, n =>
    if n < 10 then [Char.ofNat (48 + n)]
    else natDigsGo fuel (n / 10) ++ [Char.ofNat (48 + n % 10)]

/-- Python `str` of a non-negative integer. -/
def pyNatRepr (n : Nat) : String := String.mk (natDigsGo (n + 1) n)

/-- Python `str` of an integer (`str(int(value))` in the source). -/
def pyIntRepr (n : Int) : String :=
  if n < 0 then "-" ++ pyNatRepr n.natAbs else pyNatRepr n.natAbs

/-- The ASCII whitespace characters removed by Python `str.strip()`. -/
def isPyWs (c : Char) : Bool :=
  c = ' ' || c = '\t' || c = '\n' || c = '\r' || c = '\x0b' || c = '\x0c'

/-- Python `str.strip()` on a character list. -/
def pyStripL (l : List Char) : List Char :=
  ((l.dropWhile isPyWs).reverse.dropWhile isPyWs).reverse

/-- Python `str.strip()`. -/
def pyStripS (s : String) : String := String.mk (pyStripL s.data)

-- `s.replace("\r\n", "\n")`: left-to-right, non-overlapping.
def replCRLF : List Char → List Char
  | [] => []
  | '\r' :: '\n' :: rest => '\n' :: replCRLF rest
  | c :: rest => c :: replCRLF rest

-- `s.replace("\r", "\n")`.
def replCR (l : List Char) : List Char :=
  l.map (fun c => if c = '\r' then '\n' else c)

-- `s.replace("\n", "<br>")`.
def replNL : List Char → List Char
  | [] => []
  | c :: rest =>
    if c = '\n' then '<' :: 'b' :: 'r' :: '>' :: replNL rest else c :: replNL rest

-- `s.replace("|", "\\|")`.
def escPipes : List Char → List Char
  | [] => []
  | c :: rest =>
    if c = '|' then '\\' :: '|' :: escPipes rest else c :: escPipes rest

/-- The newline-normalising and pipe-escaping tail of `_stringify`. -/
def mdEscape (s : String) : String :=
  String.mk (escPipes (replNL (replCR (replCRLF s.data))))

/-- Python `str(value)` for a cell value. -/
def pyStrOfFloat : PyFloat → String
  | .nan => "nan"
  | .inf => "inf"
  | .ninf => "-inf"
  | .intVal _ s => s
  | .fracVal s => s

/-- Python `str(value)` for a cell value. -/
def pyStrOfVal : CellVal → String
  | .blank => "None"
  | .str s => s
  | .int n => pyIntRepr n
  | .float f => pyStrOfFloat f

/-- `pd.notna(value)`: false exactly for `None` and float NaN. -/
def notna : CellVal → Bool
  | .blank => false
  | .float .nan => false
  | _ => true

/-- The nested `_stringify` helper of `extract_sheet_text`.  Branches mirror
the Python `if` chain: `None -> ""`; float NaN -> `""`; finite integral
float -> `str(int(value))`; otherwise `str(value)` with newlines turned into
`<br>` and pipes escaped. -/
def stringify (v : CellVal) : String :=
  match v with
  | .blank => ""
  | .float .nan => ""
  | .float (.intVal n _) => pyIntRepr n
  | v => mdEscape (pyStrOfVal v)

/-- Python `sep.join(parts)`. -/
def pyJoin (sep : String) : List String → String
  | [] => ""
  | [x] => x
  | x :: y :: xs => x ++ sep ++ pyJoin sep (y :: xs)

/-- Python `s.ljust(w)`. -/
def pyLjust (s : String) (w : Nat) : String :=
  s ++ String.mk (List.replicate (w - s.length) ' ')

/-- Python `s.rjust(w)`. -/
def pyRjust (s : String) (w : Nat) : String :=
  String.mk (List.replicate (w - s.length) ' ') ++ s

/-- `"| " + " | ".join(cells) + " |"`: one rendered markdown table line. -/
def mkRow (cells : List String) : String :=
  "| " ++ pyJoin " | " cells ++ " |"

/-- Markdown column alignment; the source only ever produces `right` or
`left`, the `center` branch of the renderer is dead code it keeps "for
completeness". -/
inductive Align where
  | left : Align
  | right : Align
  | center : Align
deriving DecidableEq, Repr

/-- The grid a sheet was read into: a pandas DataFrame with `ncols` columns
(`header=None`, so every row is data).  Rows are lists of cells; a
rectangular grid has every row of length `ncols`. -/
structure Grid where
  ncols : Nat
  rows : List (List CellVal)

/-- `row[col]` for the `j`-th column (exact for rectangular grids). -/
def cellAt (r : List CellVal) (j : Nat) : CellVal := r.getD j .blank

/-- `df[col].tolist()` for the `j`-th column. -/
def colVals (g : Grid) (j : Nat) : List CellVal := g.rows.map (fun r => cellAt r j)

/-- Values that pandas stores in a numeric dtype column. -/
def isNumLike : CellVal → Bool
  | .int _ => true
  | .float _ => true
  | .blank => true
  | .str _ => false

/-- `pandas.api.types.is_numeric_dtype` for a column read by `read_excel`:
true exactly when the column is non-empty and all entries are numbers or
missing. -/
def isNumericDtype (col : List CellVal) : Bool :=
  !col.isEmpty && col.all isNumLike

/-- Alignment assigned to column `j` by `_dataframe_to_markdown_no_header`. -/
def colAlign (g : Grid) (j : Nat) : Align :=
  if isNumericDtype (colVals g j) then Align.right else Align.left

/-- The `max_cell_len` loop: maximum `len(_stringify(v))` over a column. -/
def maxCellLen (col : List CellVal) : Nat :=
  col.foldl (fun m v => max m (stringify v).length) 0

/-- `widths[j] = max(3, max_cell_len)`. -/
def colWidthAt (g : Grid) (j : Nat) : Nat := max 3 (maxCellLen (colVals g j))

/-- The header row: empty labels left-justified to each column width. -/
def headerRowOf (g : Grid) : String :=
  mkRow ((List.range g.ncols).map (fun j => pyLjust "" (colWidthAt g j)))

/-- One alignment-separator cell. -/
def sepCell (a : Align) (w : Nat) : String :=
  match a with
  | .right => String.mk (List.replicate (max 3 w - 1) '-') ++ ":"
  | .center => ":" ++ String.mk (List.replicate (max 1 (w - 2)) '-') ++ ":"
  | .left => String.mk (List.replicate (max 3 w) '-')

/-- The alignment-separator row. -/
def sepRowOf (g : Grid) : String :=
  mkRow ((List.range g.ncols).map (fun j => sepCell (colAlign g j) (colWidthAt g j)))

/-- One body cell: `_stringify(row[col])` justified to the column width. -/
def padCell (a : Align) (w : Nat) (s : String) : String :=
  match a with
  | .right => pyRjust s w
  | .center =>
    String.mk (List.replicate ((w - s.length) / 2) ' ') ++ s ++
      String.mk (List.replicate (w - s.length - (w - s.length) / 2) ' ')
  | .left => pyLjust s w

/-- One rendered body row. -/
def bodyRowOf (g : Grid) (r : List CellVal) : String :=
  mkRow ((List.range g.ncols).map
    (fun j => padCell (colAlign g j) (colWidthAt g j) (stringify (cellAt r j))))

/-- `_dataframe_to_markdown_no_header`: header, separator, then body rows,
joined with newlines. -/
def markdownOfGrid (g : Grid) : String :=
  pyJoin "\n" ([headerRowOf g, sepRowOf g] ++ g.rows.map (bodyRowOf g))

-- The do-while loop of `_col_letter`; fuel makes the recursion structural
-- (`n` strictly decreases each iteration, so `n + 1` units suffice).
def colLetterGo : Nat → Nat → List Char
  | 0, _ => []
  | fuel + 1, n =>
    let r := n % 26
    let q := n / 26
    let c := Char.ofNat (65 + r)
    if q = 0 then [c] else colLetterGo fuel (q - 1) ++ [c]

/-- `_col_letter`: 0-based column index to bijective base-26 letters. -/
def colLetter (n : Nat) : String := String.mk (colLetterGo (n + 1) n)

/-- One step of the flat-text accumulation: state is `(flat, seen)`.  The
source keeps `seen` as a set that receives exactly the strings appended to
`flat`; it is modelled as a list updated in lock-step. -/
def flatStep (st : List String × List String) (v : CellVal) :
    List String × List String :=
  if notna v then
    let text := pyStripS (pyStrOfVal v)
    if text ≠ "" then
      if text ∈ st.2 then st else (st.1 ++ [text], st.2 ++ [text])
    else st
  else st

/-- The inner `for i, col in enumerate(df.columns)` loop of the flat-text
accumulation. -/
def rowFlatFold (g : Grid) (st : List String × List String) (r : List CellVal) :
    List String × List String :=
  (List.range g.ncols).foldl (fun st j => flatStep st (cellAt r j)) st

/-- The `flat` list built by `extract_sheet_text`. -/
def flatOf (g : Grid) : List String :=
  (g.rows.foldl (rowFlatFold g) ([], [])).1

/-- One `row_dict`: column label to value, `None` for missing cells. -/
def rowRecordOf (g : Grid) (r : List CellVal) : List (String × Option CellVal) :=
  (List.range g.ncols).map
    (fun j => (colLetter j, if notna (cellAt r j) then some (cellAt r j) else none))

/-- The dictionary returned by `extract_sheet_text`. -/
structure SheetResult where
  sheet_name : String
  columns : List String
  rows : List (List (String × Option CellVal))
  flat_text : List String
  markdown : String
deriving DecidableEq, Repr

/-- `extract_sheet_text`, from the point where the sheet has been read into
the grid `g`. -/
def extractSheetText (sheetName : String) (g : Grid) : SheetResult :=
  { sheet_name := sheetName
    columns := (List.range g.ncols).map colLetter
    rows := g.rows.map (rowRecordOf g)
    flat_text := flatOf g
    markdown := markdownOfGrid g }

/-!
Observers used to state the claims: splitting the markdown string into
lines, counting separator pipes, and interpreting column labels.
-/

/-- Split a character list at newline characters (`str.split("\n")`). -/
def splitNl : List Char → List (List Char)
  | [] => [[]]
  | c :: rest =>
    if c = '\n' then [] :: splitNl rest
    else (c :: (splitNl rest).headI) :: (splitNl rest).tail

/-- The newline-separated lines of a string. -/
def mdLines (s : String) : List String := (splitNl s.data).map String.mk


def sepPipesGo (prev : Option Char) : List Char → Nat
  | [] => 0
  | c :: rest =>
    (if c = '|' ∧ prev ≠ some '\\' then 1 else 0) + sepPipesGo (some c) rest

/-- Number of unescaped (separator) pipes in a string. -/
def sepPipeCount (s : String) : Nat := sepPipesGo none s.data

def pipesOkGo (prev : Option Char) : List Char → Bool
  | [] => true
  | c :: rest =>
    if c = '|' ∧ prev ≠ some '\\' then false else pipesOkGo (some c) rest

/-- A cell fragment is pipe-safe when, whatever precedes it, it contributes
no separator pipe. -/
def PipeSafe (l : List Char) : Prop := ∀ prev, pipesOkGo prev l = true

/-- The common character length of every line of the rendered table. -/
def mdLineLen (g : Grid) : Nat :=
  if g.ncols = 0 then 4
  else ((List.range g.ncols).map (colWidthAt g)).sum + 3 * (g.ncols - 1) + 4

/-- Positional value of a letter string with A = 1, ..., Z = 26 (the
standard reading of spreadsheet column labels). -/
def labelVal (l : List Char) : Nat :=
  l.foldl (fun v c => v * 26 + (c.toNat - 64)) 0

/-- The string a single cell contributes to the flat list, if any:
present and non-empty after stripping. -/
def flatCand (v : CellVal) : Option String :=
  if notna v then
    if pyStripS (pyStrOfVal v) = "" then none else some (pyStripS (pyStrOfVal v))
  else none

/-- Row-major sequence of candidate strings of the whole grid. -/
def flatCands (g : Grid) : List String :=
  g.rows.flatMap
    (fun r => (List.range g.ncols).filterMap (fun j => flatCand (cellAt r j)))

/-- One step of first-occurrence deduplication on a `(flat, seen)` pair. -/
def candStep (st : List String × List String) (t : String) :
    List String × List String :=
  if t ∈ st.2 then st else (st.1 ++ [t], st.2 ++ [t])

/-- First-occurrence deduplication with accumulator. -/
def dedupF (acc : List String) : List String → List String
  | [] => acc
  | t :: ts => if t ∈ acc then dedupF acc ts else dedupF (acc ++ [t]) ts

/-- Total number of non-empty (present) cells of the grid. -/
def nonEmptyCellCount (g : Grid) : Nat :=
  (g.rows.map
    (fun r => ((List.range g.ncols).map (cellAt r)).countP (fun v => notna v))).sum

/-- Per-character description of the escaping pass applied after newline
normalisation: a newline becomes the four characters of `<br>`, a pipe gains
a leading backslash, anything else is kept. -/
def escOneChar (c : Char) : List Char :=
  if c = '\n' then ['<', 'b', 'r', '>'] else if c = '|' then ['\\', '|'] else [c]

lemma splitNl_no_nl (l : List Char) (h : '\n' ∉ l) : splitNl l = [l] := by
  induction l with
  | nil => rfl
  | cons c rest ih =>
    have hc : c ≠ '\n' := fun he => h (he ▸ List.mem_cons_self c rest)
    have hr : '\n' ∉ rest := fun hm => h (List.mem_cons_of_mem c hm)
    simp [splitNl, hc, ih hr]

lemma splitNl_append (l rest : List Char) (h : '\n' ∉ l) :
    splitNl (l ++ '\n' :: rest) = l :: splitNl rest := by
  induction l with
  | nil => simp [splitNl]
  | cons c l' ih =>
    have hc : c ≠ '\n' := fun he => h (he ▸ List.mem_cons_self c l')
    have hl : '\n' ∉ l' := fun hm => h (List.mem_cons_of_mem c hm)
    simp [splitNl, hc, ih hl]

lemma pyJoin_data_cons (p q : String) (xs : List String) :
    (pyJoin "\n" (p :: q :: xs)).data =
      p.data ++ '\n' :: (pyJoin "\n" (q :: xs)).data := by
  show (p ++ "\n" ++ pyJoin "\n" (q :: xs)).data = _
  simp [String.data_append]

lemma mdLines_join (parts : List String) (hne : parts ≠ [])
    (h : ∀ p ∈ parts, '\n' ∉ p.data) : mdLines (pyJoin "\n" parts) = parts := by
  induction parts with
  | nil => exact absurd rfl hne
  | cons p ps ih =>
    cases ps with
    | nil =>
      show mdLines p = [p]
      simp [mdLines, splitNl_no_nl p.data (h p (List.mem_cons_self p []))]
    | cons q xs =>
      have hp : '\n' ∉ p.data := h p (List.mem_cons_self p (q :: xs))
      have hrest : ∀ r ∈ q :: xs, '\n' ∉ r.data :=
        fun r hr => h r (List.mem_cons_of_mem p hr)
      have := ih (List.cons_ne_nil q xs) hrest
      simp only [mdLines, pyJoin_data_cons, splitNl_append _ _ hp, List.map_cons]
      simp only [mdLines] at this
      simp [this]

-- Number of lines equals one more than the number of newline characters; we
-- use the list form directly in the claims.
lemma mdLines_length_join (parts : List String) (hne : parts ≠ [])
    (h : ∀ p ∈ parts, '\n' ∉ p.data) :
    (mdLines (pyJoin "\n" parts)).length = parts.length := by
  rw [mdLines_join parts hne h]

/-!
Character-level facts: which characters the rendered pieces can contain.
-/

lemma char_ne_of_toNat_ne {c d : Char} (h : c.toNat ≠ d.toNat) : c ≠ d :=
  fun he => h (he ▸ rfl)

lemma toNat_ofNat_digit {n : Nat} (h : n < 10) :
    (Char.ofNat (48 + n)).toNat = 48 + n := by
  interval_cases n <;> decide

lemma natDigsGo_digits : ∀ (fuel n : Nat), ∀ c ∈ natDigsGo fuel n,
    48 ≤ c.toNat ∧ c.toNat ≤ 57 := by
  intro fuel
  induction fuel with
  | zero => intro n c hc; simp [natDigsGo] at hc
  | succ f ih =>
    intro n c hc
    by_cases h : n < 10
    · simp [natDigsGo, h] at hc
      subst hc
      rw [toNat_ofNat_digit h]
      omega
    · simp only [natDigsGo, if_neg h, List.mem_append, List.mem_singleton] at hc
      rcases hc with hc | hc
      · exact ih (n / 10) c hc
      · subst hc
        rw [toNat_ofNat_digit (Nat.mod_lt n (by omega))]
        omega

lemma pyNatRepr_digits : ∀ c ∈ (pyNatRepr n).data, 48 ≤ c.toNat ∧ c.toNat ≤ 57 :=
  fun c hc => natDigsGo_digits (n + 1) n c hc

lemma pyIntRepr_chars (n : Int) :
    ∀ c ∈ (pyIntRepr n).data, (48 ≤ c.toNat ∧ c.toNat ≤ 57) ∨ c = '-' := by
  intro c hc
  unfold pyIntRepr at hc
  by_cases h : n < 0
  · rw [if_pos h, String.data_append] at hc
    rcases List.mem_append.mp hc with hc | hc
    · right
      simpa using hc
    · exact Or.inl (pyNatRepr_digits c hc)
  · rw [if_neg h] at hc
    exact Or.inl (pyNatRepr_digits c hc)

lemma no_nl_replNL : ∀ (l : List Char), '\n' ∉ replNL l := by
  intro l
  induction l with
  | nil => simp [replNL]
  | cons c rest ih =>
    by_cases h : c = '\n' <;> simp [replNL, h, ih]
    exact fun he => h he.symm

lemma mem_escPipes : ∀ (l : List Char), ∀ c ∈ escPipes l, c ∈ l ∨ c = '\\' := by
  intro l
  induction l with
  | nil => intro c hc; simp [escPipes] at hc
  | cons d rest ih =>
    intro c hc
    by_cases h : d = '|'
    · simp only [escPipes, if_pos h, List.mem_cons] at hc
      rcases hc with hc | hc | hc
      · exact Or.inr hc
      · exact Or.inl (hc ▸ h ▸ List.mem_cons_self d rest)
      · rcases ih c hc with h' | h'
        · exact Or.inl (List.mem_cons_of_mem d h')
        · exact Or.inr h'
    · simp only [escPipes, if_neg h, List.mem_cons] at hc
      rcases hc with hc | hc
      · exact Or.inl (hc ▸ List.mem_cons_self d rest)
      · rcases ih c hc with h' | h'
        · exact Or.inl (List.mem_cons_of_mem d h')
        · exact Or.inr h'

lemma no_nl_mdEscape (s : String) : '\n' ∉ (mdEscape s).data := by
  intro hc
  rcases mem_escPipes _ _ hc with h | h
  · exact no_nl_replNL _ h
  · simp at h

lemma no_nl_stringify (v : CellVal) : '\n' ∉ (stringify v).data := by
  match v with
  | .blank => simp [stringify]
  | .float .nan => simp [stringify]
  | .float (.intVal n s) =>
    show '\n' ∉ (pyIntRepr n).data
    intro hc
    rcases pyIntRepr_chars n _ hc with h | h
    · have : ('\n').toNat = 10 := by decide
      omega
    · simp at h
  | .str s => exact no_nl_mdEscape _
  | .int n => exact no_nl_mdEscape _
  | .float .inf => exact no_nl_mdEscape _
  | .float .ninf => exact no_nl_mdEscape _
  | .float (.fracVal s) => exact no_nl_mdEscape _

lemma no_pipe_stringify_of_digits (n : Int) : '|' ∉ (pyIntRepr n).data := by
  intro hc
  rcases pyIntRepr_chars n _ hc with h | h
  · have : ('|').toNat = 124 := by decide
    omega
  · simp at h

/-!
Separator pipes.  In a rendered line, a pipe character is a column
separator unless it is immediately preceded by a backslash (the escape the
renderer writes for pipes embedded in cell text).  `sepPipeCount` counts the
separator pipes of a line; `pipesOkGo` says a fragment contains no separator
pipe no matter what character precedes it, which is the invariant every
rendered cell satisfies.
-/

lemma sepPipesGo_prev_irrel {tail : List Char} (h : tail.head? ≠ some '|')
    (p1 p2 : Option Char) : sepPipesGo p1 tail = sepPipesGo p2 tail := by
  cases tail with
  | nil => rfl
  | cons c rest =>
    have hc : c ≠ '|' := by
      intro he
      exact h (by simp [he])
    simp [sepPipesGo, hc]

lemma sepPipesGo_append_safe : ∀ (cl : List Char), ∀ (prev : Option Char),
    pipesOkGo prev cl = true → ∀ (tail : List Char), tail.head? ≠ some '|' →
    sepPipesGo prev (cl ++ tail) = sepPipesGo none tail := by
  intro cl
  induction cl with
  | nil => intro prev _ tail ht; exact sepPipesGo_prev_irrel ht prev none
  | cons c rest ih =>
    intro prev hok tail ht
    by_cases hc : c = '|' ∧ prev ≠ some '\\'
    · rw [pipesOkGo, if_pos hc] at hok
      exact absurd hok (by simp)
    · rw [pipesOkGo, if_neg hc] at hok
      show (if c = '|' ∧ prev ≠ some '\\' then 1 else 0) +
          sepPipesGo (some c) (rest ++ tail) = sepPipesGo none tail
      rw [if_neg hc, ih (some c) hok tail ht, Nat.zero_add]

lemma pipeSafe_of_no_pipe {l : List Char} (h : '|' ∉ l) : PipeSafe l := by
  induction l with
  | nil => intro prev; rfl
  | cons c rest ih =>
    intro prev
    have hc : c ≠ '|' := fun he => h (he ▸ List.mem_cons_self c rest)
    have hr : '|' ∉ rest := fun hm => h (List.mem_cons_of_mem c hm)
    rw [pipesOkGo, if_neg (by simp [hc])]
    exact ih hr (some c)

lemma pipeSafe_escPipes : ∀ (l : List Char), PipeSafe (escPipes l) := by
  intro l
  induction l with
  | nil => intro prev; rfl
  | cons c rest ih =>
    intro prev
    by_cases h : c = '|'
    · simp only [escPipes, if_pos h]
      rw [pipesOkGo, if_neg (by simp)]
      rw [pipesOkGo, if_neg (by simp)]
      exact ih (some '|')
    · simp only [escPipes, if_neg h]
      rw [pipesOkGo, if_neg (by simp [h])]
      exact ih (some c)

lemma pipesOkGo_append {b : List Char} (hb : PipeSafe b) :
    ∀ (a : List Char) (prev : Option Char), pipesOkGo prev a = true →
    pipesOkGo prev (a ++ b) = true := by
  intro a
  induction a with
  | nil => intro prev _; simpa using hb prev
  | cons c rest ih =>
    intro prev h1
    rw [List.cons_append]
    by_cases hc : c = '|' ∧ prev ≠ some '\\'
    · rw [pipesOkGo, if_pos hc] at h1
      exact absurd h1 (by simp)
    · rw [pipesOkGo, if_neg hc] at h1
      rw [pipesOkGo, if_neg hc]
      exact ih (some c) h1

lemma pipeSafe_append {a b : List Char} (ha : PipeSafe a) (hb : PipeSafe b) :
    PipeSafe (a ++ b) := fun prev => pipesOkGo_append hb a prev (ha prev)

lemma sepPipesGo_join : ∀ (cells : List String), cells ≠ [] →
    (∀ cl ∈ cells, PipeSafe cl.data) → ∀ (prev : Option Char),
    sepPipesGo prev ((pyJoin " | " cells).data ++ [' ', '|']) = cells.length := by
  intro cells
  induction cells with
  | nil => intro h; exact absurd rfl h
  | cons c cs ih =>
    intro _ hsafe prev
    cases cs with
    | nil =>
      show sepPipesGo prev (c.data ++ [' ', '|']) = 1
      rw [sepPipesGo_append_safe c.data prev
        (hsafe c (List.mem_cons_self c []) prev) [' ', '|'] (by simp)]
      decide
    | cons c2 cs2 =>
      have hdata : (pyJoin " | " (c :: c2 :: cs2)).data ++ [' ', '|'] =
          c.data ++ (' ' :: '|' :: ' ' ::
            ((pyJoin " | " (c2 :: cs2)).data ++ [' ', '|'])) := by
        show (c ++ " | " ++ pyJoin " | " (c2 :: cs2)).data ++ [' ', '|'] = _
        simp [String.data_append]
      rw [hdata,
        sepPipesGo_append_safe c.data prev
          (hsafe c (List.mem_cons_self c (c2 :: cs2)) prev) _ (by simp)]
      show (if (' ' : Char) = '|' ∧ (none : Option Char) ≠ some '\\' then 1 else 0) +
        ((if ('|' : Char) = '|' ∧ (some ' ') ≠ some '\\' then 1 else 0) +
          ((if (' ' : Char) = '|' ∧ (some '|') ≠ some '\\' then 1 else 0) +
            sepPipesGo (some ' ')
              ((pyJoin " | " (c2 :: cs2)).data ++ [' ', '|']))) = _
      rw [if_neg (by simp), if_pos (by simp), if_neg (by simp)]
      rw [ih (List.cons_ne_nil c2 cs2)
        (fun cl hcl prev' => hsafe cl (List.mem_cons_of_mem c hcl) prev') (some ' ')]
      simp [List.length_cons]
      omega

lemma sepPipeCount_mkRow (cells : List String) (hne : cells ≠ [])
    (h : ∀ cl ∈ cells, PipeSafe cl.data) :
    sepPipeCount (mkRow cells) = cells.length + 1 := by
  have hdata : (mkRow cells).data =
      '|' :: ' ' :: ((pyJoin " | " cells).data ++ [' ', '|']) := by
    show ("| " ++ pyJoin " | " cells ++ " |").data = _
    simp [String.data_append]
  unfold sepPipeCount
  rw [hdata]
  show (if ('|' : Char) = '|' ∧ (none : Option Char) ≠ some '\\' then 1 else 0) +
    ((if (' ' : Char) = '|' ∧ (some '|') ≠ some '\\' then 1 else 0) +
      sepPipesGo (some ' ') ((pyJoin " | " cells).data ++ [' ', '|'])) = cells.length + 1
  rw [if_pos (by simp), if_neg (by simp), sepPipesGo_join cells hne h (some ' ')]
  omega

lemma pipeSafe_replicate (n : Nat) (c : Char) (h : c ≠ '|') :
    PipeSafe (List.replicate n c) :=
  pipeSafe_of_no_pipe (fun hm => h ((List.eq_of_mem_replicate hm).symm))

lemma pipeSafe_stringify (v : CellVal) : PipeSafe (stringify v).data := by
  match v with
  | .blank => exact pipeSafe_of_no_pipe (by simp [stringify])
  | .float .nan => exact pipeSafe_of_no_pipe (by simp [stringify])
  | .float (.intVal n s) =>
    exact pipeSafe_of_no_pipe (no_pipe_stringify_of_digits n)
  | .str s => exact pipeSafe_escPipes _
  | .int n => exact pipeSafe_escPipes _
  | .float .inf => exact pipeSafe_escPipes _
  | .float .ninf => exact pipeSafe_escPipes _
  | .float (.fracVal s) => exact pipeSafe_escPipes _

lemma pipeSafe_pyLjust {s : String} (hs : PipeSafe s.data) (w : Nat) :
    PipeSafe (pyLjust s w).data := by
  show PipeSafe (s ++ String.mk (List.replicate (w - s.length) ' ')).data
  rw [String.data_append]
  exact pipeSafe_append hs (pipeSafe_replicate _ _ (by decide))

lemma pipeSafe_pyRjust {s : String} (hs : PipeSafe s.data) (w : Nat) :
    PipeSafe (pyRjust s w).data := by
  show PipeSafe (String.mk (List.replicate (w - s.length) ' ') ++ s).data
  rw [String.data_append]
  exact pipeSafe_append (pipeSafe_replicate _ _ (by decide)) hs

lemma pipeSafe_padCell (a : Align) (w : Nat) {s : String} (hs : PipeSafe s.data) :
    PipeSafe (padCell a w s).data := by
  match a with
  | .left => exact pipeSafe_pyLjust hs w
  | .right => exact pipeSafe_pyRjust hs w
  | .center =>
    show PipeSafe ((String.mk (List.replicate ((w - s.length) / 2) ' ') ++ s ++
      String.mk (List.replicate (w - s.length - (w - s.length) / 2) ' ')).data)
    rw [String.data_append, String.data_append]
    exact pipeSafe_append
      (pipeSafe_append (pipeSafe_replicate _ _ (by decide)) hs)
      (pipeSafe_replicate _ _ (by decide))

lemma pipeSafe_sepCell (a : Align) (w : Nat) : PipeSafe (sepCell a w).data := by
  match a with
  | .right =>
    show PipeSafe ((String.mk (List.replicate (max 3 w - 1) '-') ++ ":").data)
    rw [String.data_append]
    exact pipeSafe_append (pipeSafe_replicate _ _ (by decide))
      (pipeSafe_of_no_pipe (by decide))
  | .center =>
    show PipeSafe ((":" ++ String.mk (List.replicate (max 1 (w - 2)) '-') ++ ":").data)
    rw [String.data_append, String.data_append]
    exact pipeSafe_append
      (pipeSafe_append (pipeSafe_of_no_pipe (by decide))
        (pipeSafe_replicate _ _ (by decide)))
      (pipeSafe_of_no_pipe (by decide))
  | .left => exact pipeSafe_replicate _ _ (by decide)

/-!
Line lengths and newline freedom of rendered rows.
-/

lemma mem_pyJoin_data (sep : String) : ∀ (parts : List String), ∀ c,
    c ∈ (pyJoin sep parts).data → c ∈ sep.data ∨ ∃ p ∈ parts, c ∈ p.data := by
  intro parts
  induction parts with
  | nil => intro c hc; exact absurd hc (by simp [pyJoin])
  | cons x xs ih =>
    intro c hc
    cases xs with
    | nil =>
      exact Or.inr ⟨x, List.mem_cons_self x [], hc⟩
    | cons y ys =>
      have hc' : c ∈ (x ++ sep ++ pyJoin sep (y :: ys)).data := hc
      rw [String.data_append, String.data_append] at hc'
      replace hc := hc'
      rcases List.mem_append.mp hc with hc | hc
      · rcases List.mem_append.mp hc with hc | hc
        · exact Or.inr ⟨x, List.mem_cons_self x (y :: ys), hc⟩
        · exact Or.inl hc
      · rcases ih c hc with h | ⟨p, hp, hcp⟩
        · exact Or.inl h
        · exact Or.inr ⟨p, List.mem_cons_of_mem x hp, hcp⟩

lemma no_nl_mkRow {cells : List String} (h : ∀ cl ∈ cells, '\n' ∉ cl.data) :
    '\n' ∉ (mkRow cells).data := by
  intro hc
  have hc' : '\n' ∈ ("| " ++ pyJoin " | " cells ++ " |").data := hc
  rw [String.data_append, String.data_append] at hc'
  replace hc := hc'
  rcases List.mem_append.mp hc with hc | hc
  · rcases List.mem_append.mp hc with hc | hc
    · simp at hc
    · rcases mem_pyJoin_data " | " cells '\n' hc with h' | ⟨p, hp, hcp⟩
      · simp at h'
      · exact h p hp hcp
  · simp at hc

lemma no_nl_replicate {n : Nat} {c : Char} (h : c ≠ '\n') :
    '\n' ∉ List.replicate n c :=
  fun hm => h ((List.eq_of_mem_replicate hm).symm)

lemma no_nl_pyLjust {s : String} (hs : '\n' ∉ s.data) (w : Nat) :
    '\n' ∉ (pyLjust s w).data := by
  show '\n' ∉ (s ++ String.mk (List.replicate (w - s.length) ' ')).data
  rw [String.data_append]
  intro hc
  rcases List.mem_append.mp hc with hc | hc
  · exact hs hc
  · exact no_nl_replicate (by decide) hc

lemma no_nl_pyRjust {s : String} (hs : '\n' ∉ s.data) (w : Nat) :
    '\n' ∉ (pyRjust s w).data := by
  show '\n' ∉ (String.mk (List.replicate (w - s.length) ' ') ++ s).data
  rw [String.data_append]
  intro hc
  rcases List.mem_append.mp hc with hc | hc
  · exact no_nl_replicate (by decide) hc
  · exact hs hc

lemma no_nl_padCell (a : Align) (w : Nat) {s : String} (hs : '\n' ∉ s.data) :
    '\n' ∉ (padCell a w s).data := by
  match a with
  | .left => exact no_nl_pyLjust hs w
  | .right => exact no_nl_pyRjust hs w
  | .center =>
    show '\n' ∉ ((String.mk (List.replicate ((w - s.length) / 2) ' ') ++ s ++
      String.mk (List.replicate (w - s.length - (w - s.length) / 2) ' ')).data)
    rw [String.data_append, String.data_append]
    intro hc
    rcases List.mem_append.mp hc with hc | hc
    · rcases List.mem_append.mp hc with hc | hc
      · exact no_nl_replicate (by decide) hc
      · exact hs hc
    · exact no_nl_replicate (by decide) hc

lemma no_nl_sepCell (a : Align) (w : Nat) : '\n' ∉ (sepCell a w).data := by
  match a with
  | .right =>
    show '\n' ∉ ((String.mk (List.replicate (max 3 w - 1) '-') ++ ":").data)
    rw [String.data_append]
    intro hc
    rcases List.mem_append.mp hc with hc | hc
    · exact no_nl_replicate (by decide) hc
    · simp at hc
  | .center =>
    show '\n' ∉ ((":" ++ String.mk (List.replicate (max 1 (w - 2)) '-') ++ ":").data)
    rw [String.data_append, String.data_append]
    intro hc
    rcases List.mem_append.mp hc with hc | hc
    · rcases List.mem_append.mp hc with hc | hc
      · simp at hc
      · exact no_nl_replicate (by decide) hc
    · simp at hc
  | .left => exact no_nl_replicate (by decide)

lemma no_nl_headerRow (g : Grid) : '\n' ∉ (headerRowOf g).data := by
  refine no_nl_mkRow ?_
  intro cl hcl
  rcases List.mem_map.mp hcl with ⟨j, _, rfl⟩
  exact no_nl_pyLjust (by simp) _

lemma no_nl_sepRow (g : Grid) : '\n' ∉ (sepRowOf g).data := by
  refine no_nl_mkRow ?_
  intro cl hcl
  rcases List.mem_map.mp hcl with ⟨j, _, rfl⟩
  exact no_nl_sepCell _ _

lemma no_nl_bodyRow (g : Grid) (r : List CellVal) : '\n' ∉ (bodyRowOf g r).data := by
  refine no_nl_mkRow ?_
  intro cl hcl
  rcases List.mem_map.mp hcl with ⟨j, _, rfl⟩
  exact no_nl_padCell _ _ (no_nl_stringify _)

/-- The lines of the markdown string are exactly header, separator and one
line per grid row, in order. -/
lemma mdLines_markdownOfGrid (g : Grid) :
    mdLines (markdownOfGrid g) =
      [headerRowOf g, sepRowOf g] ++ g.rows.map (bodyRowOf g) := by
  refine mdLines_join _ (by simp) ?_
  intro p hp
  rcases List.mem_append.mp hp with hp | hp
  · simp only [List.mem_cons, List.not_mem_nil, or_false] at hp
    rcases hp with rfl | rfl
    · exact no_nl_headerRow g
    · exact no_nl_sepRow g
  · rcases List.mem_map.mp hp with ⟨r, _, rfl⟩
    exact no_nl_bodyRow g r

lemma pyJoin_length (sep : String) : ∀ (cells : List String), cells ≠ [] →
    (pyJoin sep cells).length =
      (cells.map String.length).sum + sep.length * (cells.length - 1) := by
  intro cells
  induction cells with
  | nil => intro h; exact absurd rfl h
  | cons x xs ih =>
    intro _
    cases xs with
    | nil => simp [pyJoin]
    | cons y ys =>
      show (x ++ sep ++ pyJoin sep (y :: ys)).length = _
      rw [String.length_append, String.length_append, ih (List.cons_ne_nil y ys)]
      simp only [List.map_cons, List.sum_cons, List.length_cons]
      have : sep.length * (ys.length + 1 + 1 - 1) = sep.length * (ys.length + 1 - 1)
          + sep.length := by
        simp [Nat.mul_succ]
      omega

lemma mkRow_length (cells : List String) (hne : cells ≠ []) :
    (mkRow cells).length =
      (cells.map String.length).sum + 3 * (cells.length - 1) + 4 := by
  show ("| " ++ pyJoin " | " cells ++ " |").length = _
  rw [String.length_append, String.length_append, pyJoin_length " | " cells hne]
  show 2 + ((cells.map String.length).sum + 3 * (cells.length - 1)) + 2 = _
  omega

lemma mkRow_nil_length : (mkRow []).length = 4 := by decide

lemma pyLjust_length (s : String) (w : Nat) :
    (pyLjust s w).length = max w s.length := by
  show (s ++ String.mk (List.replicate (w - s.length) ' ')).length = _
  rw [String.length_append]
  show s.length + (List.replicate (w - s.length) ' ').length = _
  rw [List.length_replicate]
  omega

lemma pyRjust_length (s : String) (w : Nat) :
    (pyRjust s w).length = max w s.length := by
  show (String.mk (List.replicate (w - s.length) ' ') ++ s).length = _
  rw [String.length_append]
  show (List.replicate (w - s.length) ' ').length + s.length = _
  rw [List.length_replicate]
  omega

lemma padCell_length (a : Align) (w : Nat) (s : String) (ha : a ≠ Align.center) :
    (padCell a w s).length = max w s.length := by
  match a with
  | .left => exact pyLjust_length s w
  | .right => exact pyRjust_length s w
  | .center => exact absurd rfl ha

lemma sepCell_length (a : Align) (w : Nat) (hw : 3 ≤ w) (ha : a ≠ Align.center) :
    (sepCell a w).length = w := by
  match a with
  | .right =>
    show (String.mk (List.replicate (max 3 w - 1) '-') ++ ":").length = w
    rw [String.length_append]
    show (List.replicate (max 3 w - 1) '-').length + 1 = w
    rw [List.length_replicate]
    omega
  | .left =>
    show (String.mk (List.replicate (max 3 w) '-')).length = w
    show (List.replicate (max 3 w) '-').length = w
    rw [List.length_replicate]
    omega
  | .center => exact absurd rfl ha

lemma foldl_max_init_le (f : CellVal → Nat) :
    ∀ (l : List CellVal) (i : Nat), i ≤ l.foldl (fun m v => max m (f v)) i := by
  intro l
  induction l with
  | nil => intro i; exact le_refl i
  | cons x xs ih =>
    intro i
    exact le_trans (le_max_left i (f x)) (ih (max i (f x)))

lemma le_foldl_max (f : CellVal → Nat) :
    ∀ (l : List CellVal) (i : Nat), ∀ v ∈ l, f v ≤ l.foldl (fun m v => max m (f v)) i := by
  intro l
  induction l with
  | nil => intro i v hv; exact absurd hv (List.not_mem_nil v)
  | cons x xs ih =>
    intro i v hv
    rcases List.mem_cons.mp hv with rfl | hv
    · exact le_trans (le_max_right i (f v)) (foldl_max_init_le f xs (max i (f v)))
    · exact ih (max i (f x)) v hv

lemma le_maxCellLen {col : List CellVal} {v : CellVal} (h : v ∈ col) :
    (stringify v).length ≤ maxCellLen col :=
  le_foldl_max (fun v => (stringify v).length) col 0 v h

lemma three_le_colWidthAt (g : Grid) (j : Nat) : 3 ≤ colWidthAt g j :=
  le_max_left 3 _

lemma colAlign_ne_center (g : Grid) (j : Nat) : colAlign g j ≠ Align.center := by
  unfold colAlign
  by_cases h : isNumericDtype (colVals g j) <;> simp [h]

lemma mkRow_length_of_widths (g : Grid) (cells : List String)
    (hlen : cells.map String.length = (List.range g.ncols).map (colWidthAt g)) :
    (mkRow cells).length = mdLineLen g := by
  have hcl : cells.length = g.ncols := by
    have := congrArg List.length hlen
    simpa using this
  by_cases h : g.ncols = 0
  · have : cells = [] := List.length_eq_zero.mp (hcl.trans h)
    rw [this, mkRow_nil_length, mdLineLen, if_pos h]
  · have hne : cells ≠ [] := by
      intro he
      rw [he] at hcl
      exact h hcl.symm
    rw [mkRow_length cells hne, hlen, hcl, mdLineLen, if_neg h]

lemma headerRow_length (g : Grid) : (headerRowOf g).length = mdLineLen g := by
  refine mkRow_length_of_widths g _ ?_
  rw [List.map_map]
  refine List.map_congr_left ?_
  intro j _
  show (pyLjust "" (colWidthAt g j)).length = colWidthAt g j
  rw [pyLjust_length]
  simp

lemma sepRow_length (g : Grid) : (sepRowOf g).length = mdLineLen g := by
  refine mkRow_length_of_widths g _ ?_
  rw [List.map_map]
  refine List.map_congr_left ?_
  intro j _
  exact sepCell_length _ _ (three_le_colWidthAt g j) (colAlign_ne_center g j)

lemma bodyRow_length (g : Grid) {r : List CellVal} (hr : r ∈ g.rows) :
    (bodyRowOf g r).length = mdLineLen g := by
  refine mkRow_length_of_widths g _ ?_
  rw [List.map_map]
  refine List.map_congr_left ?_
  intro j _
  show (padCell (colAlign g j) (colWidthAt g j) (stringify (cellAt r j))).length = _
  rw [padCell_length _ _ _ (colAlign_ne_center g j)]
  have hmem : cellAt r j ∈ colVals g j := List.mem_map.mpr ⟨r, hr, rfl⟩
  have h1 : (stringify (cellAt r j)).length ≤ colWidthAt g j :=
    le_trans (le_maxCellLen hmem) (le_max_right 3 _)
  omega

lemma mdLine_length (g : Grid) :
    ∀ line ∈ mdLines (markdownOfGrid g), line.length = mdLineLen g := by
  rw [mdLines_markdownOfGrid]
  intro line hl
  rcases List.mem_append.mp hl with hl | hl
  · simp only [List.mem_cons, List.not_mem_nil, or_false] at hl
    rcases hl with rfl | rfl
    · exact headerRow_length g
    · exact sepRow_length g
  · rcases List.mem_map.mp hl with ⟨r, hr, rfl⟩
    exact bodyRow_length g hr

lemma mkRow_data (cells : List String) :
    (mkRow cells).data = '|' :: ' ' :: ((pyJoin " | " cells).data ++ [' ', '|']) := by
  show ("| " ++ pyJoin " | " cells ++ " |").data = _
  simp [String.data_append]

lemma headerCells_pipeSafe (g : Grid) :
    ∀ cl ∈ (List.range g.ncols).map (fun j => pyLjust "" (colWidthAt g j)),
      PipeSafe cl.data := by
  intro cl hcl
  rcases List.mem_map.mp hcl with ⟨j, _, rfl⟩
  exact pipeSafe_pyLjust (pipeSafe_of_no_pipe (by simp)) _

lemma sepCells_pipeSafe (g : Grid) :
    ∀ cl ∈ (List.range g.ncols).map (fun j => sepCell (colAlign g j) (colWidthAt g j)),
      PipeSafe cl.data := by
  intro cl hcl
  rcases List.mem_map.mp hcl with ⟨j, _, rfl⟩
  exact pipeSafe_sepCell _ _

lemma bodyCells_pipeSafe (g : Grid) (r : List CellVal) :
    ∀ cl ∈ (List.range g.ncols).map
      (fun j => padCell (colAlign g j) (colWidthAt g j) (stringify (cellAt r j))),
      PipeSafe cl.data := by
  intro cl hcl
  rcases List.mem_map.mp hcl with ⟨j, _, rfl⟩
  exact pipeSafe_padCell _ _ (pipeSafe_stringify _)

/-- Shape of every line of the rendered markdown: it is a `mkRow` over
exactly `ncols` pipe-safe cells. -/
lemma mdLine_shape (g : Grid) :
    ∀ line ∈ mdLines (markdownOfGrid g), ∃ cells : List String,
      line = mkRow cells ∧ cells.length = g.ncols ∧
      ∀ cl ∈ cells, PipeSafe cl.data := by
  rw [mdLines_markdownOfGrid]
  intro line hl
  rcases List.mem_append.mp hl with hl | hl
  · simp only [List.mem_cons, List.not_mem_nil, or_false] at hl
    rcases hl with rfl | rfl
    · exact ⟨_, rfl, by simp, headerCells_pipeSafe g⟩
    · exact ⟨_, rfl, by simp, sepCells_pipeSafe g⟩
  · rcases List.mem_map.mp hl with ⟨r, _, rfl⟩
    exact ⟨_, rfl, by simp, bodyCells_pipeSafe g r⟩

lemma mdLine_sepPipeCount (g : Grid) (h : g.ncols ≠ 0) :
    ∀ line ∈ mdLines (markdownOfGrid g), sepPipeCount line = g.ncols + 1 := by
  intro line hl
  rcases mdLine_shape g line hl with ⟨cells, rfl, hlen, hsafe⟩
  have hne : cells ≠ [] := by
    intro he
    rw [he] at hlen
    exact h hlen.symm
  rw [sepPipeCount_mkRow cells hne hsafe, hlen]

lemma mdLine_edges (g : Grid) :
    ∀ line ∈ mdLines (markdownOfGrid g),
      (∃ t, line.data = '|' :: ' ' :: t) ∧ (∃ t, line.data = t ++ [' ', '|']) := by
  intro line hl
  rcases mdLine_shape g line hl with ⟨cells, rfl, _, _⟩
  rw [mkRow_data]
  exact ⟨⟨_, rfl⟩, ⟨'|' :: ' ' :: (pyJoin " | " cells).data, by simp⟩⟩

/-!
Column labels: bijective base-26 interpretation and length behaviour.
-/

lemma toNat_ofNat_letter {r : Nat} (h : r < 26) :
    (Char.ofNat (65 + r)).toNat = 65 + r := by
  interval_cases r <;> decide

lemma colLetterGo_zero_case {n : Nat} (h : n / 26 = 0) (fuel : Nat) :
    colLetterGo (fuel + 1) n = [Char.ofNat (65 + n % 26)] := by
  simp [colLetterGo, h]

lemma colLetterGo_succ_case {n : Nat} (h : n / 26 ≠ 0) (fuel : Nat) :
    colLetterGo (fuel + 1) n =
      colLetterGo fuel (n / 26 - 1) ++ [Char.ofNat (65 + n % 26)] := by
  simp [colLetterGo, h]

lemma colLetterGo_val : ∀ (fuel n : Nat), n < fuel →
    labelVal (colLetterGo fuel n) = n + 1 := by
  intro fuel
  induction fuel with
  | zero => intro n h; omega
  | succ f ih =>
    intro n h
    by_cases hq : n / 26 = 0
    · have hn : n < 26 := by
        rcases Nat.div_eq_zero_iff (by omega : 0 < 26) |>.mp hq with h'
        exact h'
      have hr : n % 26 = n := Nat.mod_eq_of_lt hn
      rw [colLetterGo_zero_case hq]
      show List.foldl (fun v c => v * 26 + (c.toNat - 64)) 0 [Char.ofNat (65 + n % 26)]
        = n + 1
      simp only [List.foldl_cons, List.foldl_nil]
      rw [hr, toNat_ofNat_letter hn]
      omega
    · have hq1 : 1 ≤ n / 26 := Nat.one_le_iff_ne_zero.mpr hq
      have hn26 : 26 ≤ n := by
        by_contra hlt
        exact hq (Nat.div_eq_of_lt (by omega))
      have hql : n / 26 ≤ n := Nat.div_le_self n 26
      rw [colLetterGo_succ_case hq]
      unfold labelVal
      rw [List.foldl_append]
      have ihv := ih (n / 26 - 1) (by omega)
      unfold labelVal at ihv
      rw [ihv]
      simp only [List.foldl_cons, List.foldl_nil]
      rw [toNat_ofNat_letter (Nat.mod_lt n (by omega))]
      have hdm := Nat.div_add_mod n 26
      have hlt : n % 26 < 26 := Nat.mod_lt n (by omega)
      omega

/-- `_col_letter` is the inverse of the bijective base-26 valuation:
the label of index `n` denotes the positive integer `n + 1`. -/
lemma labelVal_colLetter (n : Nat) : labelVal (colLetter n).data = n + 1 :=
  colLetterGo_val (n + 1) n (Nat.lt_succ_self n)

lemma colLetterGo_fuel : ∀ (n f1 f2 : Nat), n < f1 → n < f2 →
    colLetterGo f1 n = colLetterGo f2 n := by
  intro n
  induction n using Nat.strong_induction_on with
  | _ n ih =>
    intro f1 f2 h1 h2
    cases f1 with
    | zero => omega
    | succ a =>
      cases f2 with
      | zero => omega
      | succ b =>
        by_cases hq : n / 26 = 0
        · rw [colLetterGo_zero_case hq, colLetterGo_zero_case hq]
        · have hq1 : 1 ≤ n / 26 := Nat.one_le_iff_ne_zero.mpr hq
          have hn26 : 26 ≤ n := by
            by_contra hlt
            exact hq (Nat.div_eq_of_lt (by omega))
          have hql : n / 26 ≤ n := Nat.div_le_self n 26
          rw [colLetterGo_succ_case hq, colLetterGo_succ_case hq,
            ih (n / 26 - 1) (by omega) a b (by omega) (by omega)]

lemma colLetter_rec (n : Nat) :
    colLetter n = if n < 26 then String.mk [Char.ofNat (65 + n % 26)]
      else String.mk ((colLetter (n / 26 - 1)).data ++ [Char.ofNat (65 + n % 26)]) := by
  by_cases h : n < 26
  · rw [if_pos h]
    show String.mk (colLetterGo (n + 1) n) = _
    rw [colLetterGo_zero_case (Nat.div_eq_of_lt h)]
  · have hq : n / 26 ≠ 0 := by
      intro hz
      rcases Nat.div_eq_zero_iff (by omega : 0 < 26) |>.mp hz with h'
      exact h h'
    have hq1 : 1 ≤ n / 26 := Nat.one_le_iff_ne_zero.mpr hq
    have hql : n / 26 ≤ n := Nat.div_le_self n 26
    rw [if_neg h]
    show String.mk (colLetterGo (n + 1) n) = _
    rw [colLetterGo_succ_case hq,
      colLetterGo_fuel (n / 26 - 1) n (n / 26 - 1 + 1) (by omega) (by omega)]
    rfl

lemma colLetter_length_rec (n : Nat) :
    (colLetter n).length =
      if n < 26 then 1 else (colLetter (n / 26 - 1)).length + 1 := by
  rw [colLetter_rec n]
  by_cases h : n < 26
  · rw [if_pos h, if_pos h]
    rfl
  · rw [if_neg h, if_neg h]
    show ((colLetter (n / 26 - 1)).data ++ [Char.ofNat (65 + n % 26)]).length = _
    rw [List.length_append]
    rfl

lemma colLetter_length_eq_of_mod {n : Nat} (h : (n + 1) % 26 ≠ 0) :
    (colLetter (n + 1)).length = (colLetter n).length := by
  by_cases hlt : n + 1 < 26
  · rw [colLetter_length_rec (n + 1), colLetter_length_rec n,
      if_pos hlt, if_pos (by omega)]
  · have hn26 : 26 ≤ n := by omega
    have hdiv : (n + 1) / 26 = n / 26 := by omega
    rw [colLetter_length_rec (n + 1), colLetter_length_rec n,
      if_neg hlt, if_neg (by omega), hdiv]

lemma colLetter_length_le_succ : ∀ (n : Nat),
    (colLetter n).length ≤ (colLetter (n + 1)).length := by
  intro n
  induction n using Nat.strong_induction_on with
  | _ n ih =>
    by_cases hm : (n + 1) % 26 = 0
    · by_cases h26 : n + 1 = 26
      · have : n = 25 := by omega
        subst this
        decide
      · have hge : 52 ≤ n + 1 := by omega
        have hk2 : 2 ≤ (n + 1) / 26 := by omega
        have hda : n / 26 = (n + 1) / 26 - 1 := by omega
        rw [colLetter_length_rec (n + 1), if_neg (by omega),
          colLetter_length_rec n, if_neg (by omega), hda]
        have harg : (n + 1) / 26 - 1 - 1 + 1 = (n + 1) / 26 - 1 := by omega
        have := ih ((n + 1) / 26 - 1 - 1) (by omega)
        rw [harg] at this
        omega
    · rw [colLetter_length_eq_of_mod hm]

/-- The label length is a monotone function of the column index. -/
lemma colLetter_length_mono : Monotone (fun n => (colLetter n).length) :=
  monotone_nat_of_le_succ colLetter_length_le_succ

/-- The label length only grows when the index crosses a multiple of 26. -/
lemma colLetter_length_lt_imp {n : Nat}
    (h : (colLetter n).length < (colLetter (n + 1)).length) : (n + 1) % 26 = 0 := by
  by_contra hm
  rw [colLetter_length_eq_of_mod hm] at h
  omega

/-!
Characterisation of the flat-text list: it is the first-occurrence
deduplication of the row-major sequence of stripped, non-empty cell strings.
-/

lemma flatStep_eq (st : List String × List String) (v : CellVal) :
    flatStep st v = match flatCand v with
      | none => st
      | some t => candStep st t := by
  unfold flatStep flatCand candStep
  by_cases h : notna v
  · simp only [if_pos h]
    by_cases he : pyStripS (pyStrOfVal v) = ""
    · simp [he]
    · simp [he]
  · simp [h]

lemma foldl_flatStep_eq_filterMap : ∀ (vs : List CellVal)
    (st : List String × List String),
    vs.foldl flatStep st = (vs.filterMap flatCand).foldl candStep st := by
  intro vs
  induction vs with
  | nil => intro st; rfl
  | cons v vs ih =>
    intro st
    rw [List.foldl_cons, ih (flatStep st v), List.filterMap_cons]
    cases hc : flatCand v with
    | none => rw [flatStep_eq, hc]
    | some t => rw [List.foldl_cons, flatStep_eq, hc]

lemma rowFlatFold_eq (g : Grid) (st : List String × List String) (r : List CellVal) :
    rowFlatFold g st r =
      (((List.range g.ncols).map (cellAt r)).filterMap flatCand).foldl candStep st := by
  unfold rowFlatFold
  rw [← List.foldl_map (cellAt r) flatStep, foldl_flatStep_eq_filterMap]

lemma foldl_rowFlatFold_eq : ∀ (rows : List (List CellVal)) (g : Grid)
    (st : List String × List String),
    rows.foldl (rowFlatFold g) st =
      (rows.flatMap
        (fun r => ((List.range g.ncols).map (cellAt r)).filterMap flatCand)).foldl
        candStep st := by
  intro rows
  induction rows with
  | nil => intro g st; rfl
  | cons r rows ih =>
    intro g st
    rw [List.foldl_cons, ih g, List.flatMap_cons, List.foldl_append, rowFlatFold_eq]

lemma foldl_candStep_pair : ∀ (ts acc : List String),
    ts.foldl candStep (acc, acc) = (dedupF acc ts, dedupF acc ts) := by
  intro ts
  induction ts with
  | nil => intro acc; rfl
  | cons t ts ih =>
    intro acc
    rw [List.foldl_cons]
    by_cases h : t ∈ acc
    · have hstep : candStep (acc, acc) t = (acc, acc) := by simp [candStep, h]
      rw [hstep, ih acc, dedupF, if_pos h]
    · have hstep : candStep (acc, acc) t = (acc ++ [t], acc ++ [t]) := by
        simp [candStep, h]
      rw [hstep, ih (acc ++ [t]), dedupF, if_neg h]

lemma filterMap_comp_map (g : Grid) (r : List CellVal) :
    ((List.range g.ncols).map (cellAt r)).filterMap flatCand =
      (List.range g.ncols).filterMap (fun j => flatCand (cellAt r j)) := by
  rw [List.filterMap_map]
  rfl

/-- The flat list is first-occurrence deduplication of the row-major
candidate sequence. -/
lemma flatOf_eq_dedup (g : Grid) : flatOf g = dedupF [] (flatCands g) := by
  unfold flatOf flatCands
  rw [foldl_rowFlatFold_eq g.rows g ([], [])]
  have : (fun r => ((List.range g.ncols).map (cellAt r)).filterMap flatCand) =
      (fun r => (List.range g.ncols).filterMap (fun j => flatCand (cellAt r j))) := by
    funext r
    exact filterMap_comp_map g r
  rw [this, foldl_candStep_pair]

lemma dedupF_nodup : ∀ (ts acc : List String), acc.Nodup → (dedupF acc ts).Nodup := by
  intro ts
  induction ts with
  | nil => intro acc h; exact h
  | cons t ts ih =>
    intro acc h
    rw [dedupF]
    by_cases hm : t ∈ acc
    · rw [if_pos hm]
      exact ih acc h
    · rw [if_neg hm]
      refine ih (acc ++ [t]) ?_
      simp [List.nodup_append, h, hm]

lemma dedupF_split : ∀ (ts acc : List String),
    ∃ s, dedupF acc ts = acc ++ s ∧ s.Sublist ts := by
  intro ts
  induction ts with
  | nil => intro acc; exact ⟨[], by simp [dedupF]⟩
  | cons t ts ih =>
    intro acc
    rw [dedupF]
    by_cases hm : t ∈ acc
    · rw [if_pos hm]
      rcases ih acc with ⟨s, hs, hsub⟩
      exact ⟨s, hs, hsub.cons t⟩
    · rw [if_neg hm]
      rcases ih (acc ++ [t]) with ⟨s, hs, hsub⟩
      refine ⟨t :: s, ?_, hsub.cons₂ t⟩
      rw [hs, List.append_assoc]
      rfl

lemma dedupF_mem : ∀ (ts acc : List String) (x : String),
    x ∈ dedupF acc ts ↔ x ∈ acc ∨ x ∈ ts := by
  intro ts
  induction ts with
  | nil => intro acc x; simp [dedupF]
  | cons t ts ih =>
    intro acc x
    rw [dedupF]
    by_cases hm : t ∈ acc
    · rw [if_pos hm, ih acc x]
      constructor
      · rintro (h | h)
        · exact Or.inl h
        · exact Or.inr (List.mem_cons_of_mem t h)
      · rintro (h | h)
        · exact Or.inl h
        · rcases List.mem_cons.mp h with rfl | h
          · exact Or.inl hm
          · exact Or.inr h
    · rw [if_neg hm, ih (acc ++ [t]) x]
      simp only [List.mem_append, List.mem_singleton, List.mem_cons]
      tauto

lemma dedupF_length_le : ∀ (ts acc : List String),
    (dedupF acc ts).length ≤ acc.length + ts.length := by
  intro ts acc
  rcases dedupF_split ts acc with ⟨s, hs, hsub⟩
  rw [hs, List.length_append]
  exact Nat.add_le_add_left hsub.length_le _

lemma filterMap_length_le_countP : ∀ (l : List CellVal),
    (l.filterMap flatCand).length ≤ l.countP (fun v => notna v) := by
  intro l
  induction l with
  | nil => simp
  | cons v vs ih =>
    rw [List.filterMap_cons, List.countP_cons]
    cases hc : flatCand v with
    | none =>
      refine le_trans ih ?_
      omega
    | some t =>
      have hn : notna v = true := by
        by_contra h
        rw [flatCand, if_neg h] at hc
        exact Option.noConfusion hc
      rw [List.length_cons, if_pos hn]
      omega

lemma flatCands_length_le (g : Grid) :
    (flatCands g).length ≤ nonEmptyCellCount g := by
  unfold flatCands nonEmptyCellCount
  rw [List.length_flatMap]
  refine List.sum_le_sum ?_
  intro r _
  simp only [Function.comp_apply]
  rw [← filterMap_comp_map g r]
  exact filterMap_length_le_countP _

lemma flatOf_length_le (g : Grid) : (flatOf g).length ≤ nonEmptyCellCount g := by
  rw [flatOf_eq_dedup]
  refine le_trans (dedupF_length_le _ []) ?_
  simpa using flatCands_length_le g

lemma flatOf_nodup (g : Grid) : (flatOf g).Nodup := by
  rw [flatOf_eq_dedup]
  exact dedupF_nodup _ [] List.nodup_nil

lemma flatOf_sublist (g : Grid) : (flatOf g).Sublist (flatCands g) := by
  rw [flatOf_eq_dedup]
  rcases dedupF_split (flatCands g) [] with ⟨s, hs, hsub⟩
  rw [hs]
  simpa using hsub

lemma flatOf_mem_iff (g : Grid) (x : String) :
    x ∈ flatOf g ↔ x ∈ flatCands g := by
  rw [flatOf_eq_dedup, dedupF_mem]
  simp

lemma mem_flatCands (g : Grid) {t : String} (h : t ∈ flatCands g) :
    ∃ r ∈ g.rows, ∃ j < g.ncols, notna (cellAt r j) = true ∧
      t = pyStripS (pyStrOfVal (cellAt r j)) ∧ t ≠ "" := by
  unfold flatCands at h
  rcases List.mem_flatMap.mp h with ⟨r, hr, ht⟩
  rcases List.mem_filterMap.mp ht with ⟨j, hj, hcand⟩
  refine ⟨r, hr, j, List.mem_range.mp hj, ?_⟩
  unfold flatCand at hcand
  by_cases hn : notna (cellAt r j)
  · rw [if_pos hn] at hcand
    by_cases he : pyStripS (pyStrOfVal (cellAt r j)) = ""
    · rw [if_pos he] at hcand
      exact Option.noConfusion hcand
    · rw [if_neg he] at hcand
      have := Option.some.inj hcand
      exact ⟨hn, this.symm, this ▸ he⟩
  · rw [if_neg hn] at hcand
    exact Option.noConfusion hcand

/-!
Stripped strings contain a non-whitespace character when non-empty, and the
escaping pass admits a one-pass characterisation.
-/

lemma eq_empty_of_data_nil {s : String} (h : s.data = []) : s = "" := by
  cases s
  simp at h
  simp [h]

lemma pyStripL_non_ws (l : List Char) (h : pyStripL l ≠ []) :
    ∃ c ∈ pyStripL l, isPyWs c = false := by
  unfold pyStripL at h ⊢
  set y := ((l.dropWhile isPyWs).reverse.dropWhile isPyWs) with hy
  have hyne : y ≠ [] := by
    intro he
    rw [he] at h
    exact h rfl
  refine ⟨y.head hyne, ?_, ?_⟩
  · rw [List.mem_reverse]
    exact List.head_mem hyne
  · exact List.head_dropWhile_not isPyWs _ hyne

lemma escPipes_replNL_flatMap : ∀ (l : List Char),
    escPipes (replNL l) = l.flatMap escOneChar := by
  intro l
  induction l with
  | nil => rfl
  | cons c rest ih =>
    by_cases h : c = '\n'
    · subst h
      show escPipes (replNL ('\n' :: rest)) = _
      rw [replNL, if_pos rfl]
      rw [escPipes, if_neg (by decide)]
      rw [escPipes, if_neg (by decide)]
      rw [escPipes, if_neg (by decide)]
      rw [escPipes, if_neg (by decide)]
      rw [ih, List.flatMap_cons]
      rfl
    · by_cases hp : c = '|'
      · subst hp
        rw [replNL, if_neg (by decide)]
        rw [escPipes, if_pos rfl]
        rw [ih, List.flatMap_cons]
        rfl
      · rw [replNL, if_neg h, escPipes, if_neg hp, ih, List.flatMap_cons]
        show c :: rest.flatMap escOneChar = escOneChar c ++ rest.flatMap escOneChar
        rw [escOneChar, if_neg h, if_neg hp]
        rfl

lemma mdEscape_flatMap (s : String) :
    (mdEscape s).data = (replCR (replCRLF s.data)).flatMap escOneChar := by
  show escPipes (replNL (replCR (replCRLF s.data))) = _
  exact escPipes_replNL_flatMap _

/-!
Support for the width/alignment claim: the computed width is attained or is
the minimum 3, and the separator/body rows spell out as dashes/colons and
justified cells.
-/

lemma foldl_max_cases (f : CellVal → Nat) : ∀ (l : List CellVal) (i : Nat),
    l.foldl (fun m v => max m (f v)) i = i ∨
      ∃ v ∈ l, l.foldl (fun m v => max m (f v)) i = f v := by
  intro l
  induction l with
  | nil => intro i; exact Or.inl rfl
  | cons x xs ih =>
    intro i
    rw [List.foldl_cons]
    rcases ih (max i (f x)) with h | ⟨v, hv, hev⟩
    · rcases Nat.le_total i (f x) with hle | hle
      · refine Or.inr ⟨x, List.mem_cons_self x xs, ?_⟩
        rw [h]
        omega
      · refine Or.inl ?_
        rw [h]
        omega
    · exact Or.inr ⟨v, List.mem_cons_of_mem x hv, hev⟩

lemma maxCellLen_cases (col : List CellVal) :
    maxCellLen col = 0 ∨ ∃ v ∈ col, (stringify v).length = maxCellLen col := by
  rcases foldl_max_cases (fun v => (stringify v).length) col 0 with h | ⟨v, hv, hev⟩
  · exact Or.inl h
  · exact Or.inr ⟨v, hv, hev.symm⟩

lemma colWidthAt_spec (g : Grid) (j : Nat) :
    (∀ v ∈ colVals g j, (stringify v).length ≤ colWidthAt g j) ∧
      (colWidthAt g j = 3 ∨
        ∃ v ∈ colVals g j, (stringify v).length = colWidthAt g j) := by
  constructor
  · intro v hv
    exact le_trans (le_maxCellLen hv) (le_max_right 3 _)
  · rcases maxCellLen_cases (colVals g j) with h | ⟨v, hv, hev⟩
    · left
      unfold colWidthAt
      omega
    · by_cases hle : maxCellLen (colVals g j) ≤ 3
      · left
        unfold colWidthAt
        omega
      · right
        refine ⟨v, hv, ?_⟩
        unfold colWidthAt
        omega

lemma isNumericDtype_iff {col : List CellVal} (h : col ≠ []) :
    isNumericDtype col = true ↔ ∀ v ∈ col, isNumLike v = true := by
  unfold isNumericDtype
  rw [Bool.and_eq_true, List.all_eq_true]
  have : col.isEmpty = false := by
    cases col with
    | nil => exact absurd rfl h
    | cons x xs => rfl
  rw [this]
  simp

lemma colVals_ne_nil {g : Grid} (h : 0 < g.rows.length) (j : Nat) :
    colVals g j ≠ [] := by
  unfold colVals
  intro he
  rw [← List.length_eq_zero] at he
  rw [List.length_map] at he
  omega

lemma max_three_eq (g : Grid) (j : Nat) : max 3 (colWidthAt g j) = colWidthAt g j :=
  Nat.max_eq_right (three_le_colWidthAt g j)

lemma sepRowOf_cells (g : Grid) :
    sepRowOf g = mkRow ((List.range g.ncols).map (fun j =>
      if isNumericDtype (colVals g j)
      then String.mk (List.replicate (colWidthAt g j - 1) '-') ++ ":"
      else String.mk (List.replicate (colWidthAt g j) '-'))) := by
  unfold sepRowOf
  congr 1
  refine List.map_congr_left ?_
  intro j _
  unfold colAlign
  by_cases h : isNumericDtype (colVals g j)
  · rw [if_pos h, if_pos h]
    show sepCell Align.right (colWidthAt g j) = _
    unfold sepCell
    rw [max_three_eq]
  · rw [if_neg h, if_neg h]
    show sepCell Align.left (colWidthAt g j) = _
    unfold sepCell
    rw [max_three_eq]

lemma bodyRowOf_cells (g : Grid) (r : List CellVal) :
    bodyRowOf g r = mkRow ((List.range g.ncols).map (fun j =>
      if isNumericDtype (colVals g j)
      then pyRjust (stringify (cellAt r j)) (colWidthAt g j)
      else pyLjust (stringify (cellAt r j)) (colWidthAt g j))) := by
  unfold bodyRowOf
  congr 1
  refine List.map_congr_left ?_
  intro j _
  unfold colAlign
  by_cases h : isNumericDtype (colVals g j)
  · rw [if_pos h, if_pos h]
    rfl
  · rw [if_neg h, if_neg h]
    rfl

lemma flat_entry_spec (g : Grid) :
    ∀ s ∈ flatOf g, s ≠ "" ∧ ∃ c ∈ s.data, isPyWs c = false := by
  intro s hs
  rcases mem_flatCands g ((flatOf_mem_iff g s).mp hs) with
    ⟨r, hr, j, hj, hn, heq, hne⟩
  refine ⟨hne, ?_⟩
  have hdata : s.data = pyStripL (pyStrOfVal (cellAt r j)).data := by
    rw [heq]
    rfl
  rw [hdata]
  refine pyStripL_non_ws _ ?_
  intro hnil
  refine hne ?_
  rw [heq]
  show String.mk (pyStripL (pyStrOfVal (cellAt r j)).data) = ""
  rw [hnil]

/-!
The ten claims.
-/

/-- Claim C1, counterexample: for the 1×1 grid holding the float `4.0`
(`intVal 4 "4.0"`), `flat_text` is `["4.0"]` — the trailing `.0` is NOT
stripped there, contrary to the claim that `4.0` renders as `"4"` in both
`flat_text` and the markdown table. -/
theorem claim_C1_counterexample :
    "4" ∉ (extractSheetText "s" ⟨1, [[.float (.intVal 4 "4.0")]]⟩).flat_text ∧
    (extractSheetText "s" ⟨1, [[.float (.intVal 4 "4.0")]]⟩).flat_text = ["4.0"] := by
  decide

/-- Claim C1, amended: in the MARKDOWN table an integer-valued finite float
renders as `str(int(value))` with the `.0` stripped, and a non-integer
finite float renders as its `str(value)` (escaped); but the `flat_text`
entry of any finite float is the raw `str(value)` (stripped of surrounding
whitespace), so `4.0` appears there as `"4.0"`, not `"4"`; `4.5` renders as
`"4.5"` in both. -/
theorem claim_C1 :
    (∀ (n : Int) (s : String), stringify (.float (.intVal n s)) = pyIntRepr n) ∧
    (∀ s : String, stringify (.float (.fracVal s)) = mdEscape s) ∧
    (∀ (n : Int) (s : String), flatCand (.float (.intVal n s)) =
      if pyStripS s = "" then none else some (pyStripS s)) ∧
    (∀ s : String, flatCand (.float (.fracVal s)) =
      if pyStripS s = "" then none else some (pyStripS s)) ∧
    (extractSheetText "s" ⟨1, [[.float (.intVal 4 "4.0")]]⟩).markdown =
      "|     |\n| --: |\n|   4 |" ∧
    (extractSheetText "s" ⟨1, [[.float (.intVal 4 "4.0")]]⟩).flat_text = ["4.0"] ∧
    (extractSheetText "s" ⟨1, [[.float (.fracVal "4.5")]]⟩).markdown =
      "|     |\n| --: |\n| 4.5 |" ∧
    (extractSheetText "s" ⟨1, [[.float (.fracVal "4.5")]]⟩).flat_text = ["4.5"] := by
  refine ⟨fun n s => rfl, fun s => rfl, fun n s => rfl, fun s => rfl, ?_⟩
  decide

/-- Claim C2: the flat-text list has no empty and no whitespace-only entry,
no duplicates, its entries are a subsequence of the row-major candidate
sequence (first occurrence wins, so an entry occurs iff it occurs among the
candidates), and its length is at most the number of non-empty cells. -/
theorem claim_C2 (name : String) (g : Grid) :
    (extractSheetText name g).flat_text = dedupF [] (flatCands g) ∧
    ((extractSheetText name g).flat_text).Nodup ∧
    (∀ s ∈ (extractSheetText name g).flat_text,
      s ≠ "" ∧ ∃ c ∈ s.data, isPyWs c = false) ∧
    ((extractSheetText name g).flat_text).Sublist (flatCands g) ∧
    (∀ s, s ∈ (extractSheetText name g).flat_text ↔ s ∈ flatCands g) ∧
    ((extractSheetText name g).flat_text).length ≤ nonEmptyCellCount g :=
  ⟨flatOf_eq_dedup g, flatOf_nodup g, flat_entry_spec g, flatOf_sublist g,
    flatOf_mem_iff g, flatOf_length_le g⟩

/-- Claim C2, witness at a concrete grid with a duplicate, a blank and a
whitespace-only cell. -/
theorem claim_C2_witness :
    ("Hello" ≠ "" ∧ ∃ c ∈ "Hello".data, isPyWs c = false) ∧
    ((extractSheetText "s" ⟨2, [[.str "Hello", .str "  "],
      [.str "Hello", .blank]]⟩).flat_text).length ≤
      nonEmptyCellCount ⟨2, [[.str "Hello", .str "  "], [.str "Hello", .blank]]⟩ :=
  ⟨(claim_C2 "s" ⟨2, [[.str "Hello", .str "  "], [.str "Hello", .blank]]⟩).2.2.1
      "Hello" (by decide),
    (claim_C2 "s" ⟨2, [[.str "Hello", .str "  "], [.str "Hello", .blank]]⟩).2.2.2.2.2⟩

/-- Claim C3, counterexample: the empty sheet reads as the 0-column,
0-row grid; its markdown is two lines `"|  |"`, each holding 2 separator
pipes (one empty rendered cell), not the `C + 1 = 1` pipes the claim
demands for `C = 0`. -/
theorem claim_C3_counterexample :
    mdLines (extractSheetText "Sheet1" ⟨0, []⟩).markdown = ["|  |", "|  |"] ∧
    sepPipeCount "|  |" = 2 ∧ ((0 : Nat) + 1 ≠ 2) := by
  decide

/-- Claim C3, amended: for every grid with at least one column, the markdown
has `R + 2` newline-separated lines, every line starts with `"| "`, ends
with `" |"`, is a `mkRow` over exactly `C` cells, and carries `C + 1`
separator (unescaped) pipes.  For the zero-column grid every line is
`"|  |"` with 2 pipes. -/
theorem claim_C3 (name : String) (g : Grid) (h : 1 ≤ g.ncols) :
    (mdLines (extractSheetText name g).markdown).length = g.rows.length + 2 ∧
    ∀ line ∈ mdLines (extractSheetText name g).markdown,
      (∃ t, line.data = '|' :: ' ' :: t) ∧
      (∃ t, line.data = t ++ [' ', '|']) ∧
      sepPipeCount line = g.ncols + 1 ∧
      ∃ cells : List String, line = mkRow cells ∧ cells.length = g.ncols := by
  constructor
  · show (mdLines (markdownOfGrid g)).length = g.rows.length + 2
    rw [mdLines_markdownOfGrid]
    simp
  · intro line hl
    refine ⟨(mdLine_edges g line hl).1, (mdLine_edges g line hl).2,
      mdLine_sepPipeCount g (by omega) line hl, ?_⟩
    rcases mdLine_shape g line hl with ⟨cells, hcells, hlen, _⟩
    exact ⟨cells, hcells, hlen⟩

/-- Claim C3, witness at a concrete 1-column, 1-row grid. -/
theorem claim_C3_witness :
    (mdLines (extractSheetText "s" ⟨1, [[.str "x"]]⟩).markdown).length = 1 + 2 :=
  (claim_C3 "s" ⟨1, [[.str "x"]]⟩ (by decide)).1

/-- Claim C4: `_col_letter` is a pure function of the 0-based column index
(the returned column labels depend only on `ncols`, never on cell
contents), it anchors at A, Z, AA, ZZ, AAA, it is the inverse of the
bijective base-26 valuation (no zero digit: `labelVal (label n) = n + 1`),
and its length is monotone, growing only when the index crosses a multiple
of 26. -/
theorem claim_C4 :
    (colLetter 0 = "A" ∧ colLetter 25 = "Z" ∧ colLetter 26 = "AA" ∧
      colLetter 701 = "ZZ" ∧ colLetter 702 = "AAA") ∧
    (∀ (name : String) (g : Grid),
      (extractSheetText name g).columns = (List.range g.ncols).map colLetter) ∧
    (∀ (n1 n2 : String) (g1 g2 : Grid), g1.ncols = g2.ncols →
      (extractSheetText n1 g1).columns = (extractSheetText n2 g2).columns) ∧
    (∀ n : Nat, labelVal (colLetter n).data = n + 1) ∧
    Monotone (fun n => (colLetter n).length) ∧
    (∀ n : Nat, (colLetter n).length < (colLetter (n + 1)).length →
      (n + 1) % 26 = 0) := by
  refine ⟨by decide, fun name g => rfl, ?_, labelVal_colLetter,
    colLetter_length_mono, fun n => colLetter_length_lt_imp⟩
  intro n1 n2 g1 g2 h
  show (List.range g1.ncols).map colLetter = (List.range g2.ncols).map colLetter
  rw [h]

/-- Claim C4, witness: the monotone part at 3 ≤ 7, the strictness part at
the crossing 25 → 26, and content-independence at two 2-column grids. -/
theorem claim_C4_witness :
    (colLetter 3).length ≤ (colLetter 7).length ∧
    (25 + 1) % 26 = 0 ∧
    (extractSheetText "a" ⟨2, [[.str "x", .int 1]]⟩).columns =
      (extractSheetText "b" ⟨2, []⟩).columns :=
  ⟨claim_C4.2.2.2.2.1 (by decide),
    claim_C4.2.2.2.2.2 25 (by decide),
    claim_C4.2.2.1 "a" "b" ⟨2, [[.str "x", .int 1]]⟩ ⟨2, []⟩ (by decide)⟩

/-- Claim C5: for every column of a grid with at least one row, the markdown
width is an upper bound of all stringified cell lengths in the column and is
either 3 or attained by some cell (i.e. it is `max(3, max cell length)`);
the column is right-aligned iff all its values are numeric/missing; and the
rendered table consists of the header, a separator line whose `j`-th cell is
`width-1` dashes followed by `:` for numeric columns and `width` dashes
otherwise, and body lines whose `j`-th cell is the stringified value
right-justified (numeric) or left-justified (otherwise) to the width. -/
theorem claim_C5 (name : String) (g : Grid) (h : 0 < g.rows.length) :
    (∀ j, j < g.ncols →
      (∀ v ∈ colVals g j, (stringify v).length ≤ colWidthAt g j) ∧
      (colWidthAt g j = 3 ∨
        ∃ v ∈ colVals g j, (stringify v).length = colWidthAt g j) ∧
      (isNumericDtype (colVals g j) = true ↔
        ∀ v ∈ colVals g j, isNumLike v = true)) ∧
    mdLines (extractSheetText name g).markdown =
      headerRowOf g ::
      mkRow ((List.range g.ncols).map (fun j =>
        if isNumericDtype (colVals g j)
        then String.mk (List.replicate (colWidthAt g j - 1) '-') ++ ":"
        else String.mk (List.replicate (colWidthAt g j) '-'))) ::
      g.rows.map (fun r => mkRow ((List.range g.ncols).map (fun j =>
        if isNumericDtype (colVals g j)
        then pyRjust (stringify (cellAt r j)) (colWidthAt g j)
        else pyLjust (stringify (cellAt r j)) (colWidthAt g j)))) := by
  constructor
  · intro j _
    exact ⟨(colWidthAt_spec g j).1, (colWidthAt_spec g j).2,
      isNumericDtype_iff (colVals_ne_nil h j)⟩
  · show mdLines (markdownOfGrid g) = _
    rw [mdLines_markdownOfGrid]
    rw [← sepRowOf_cells]
    have : (fun r => mkRow ((List.range g.ncols).map (fun j =>
        if isNumericDtype (colVals g j)
        then pyRjust (stringify (cellAt r j)) (colWidthAt g j)
        else pyLjust (stringify (cellAt r j)) (colWidthAt g j)))) =
        bodyRowOf g := by
      funext r
      rw [bodyRowOf_cells]
    rw [this]
    rfl

/-- Claim C5, witness at a 2-column grid with one numeric and one text
column. -/
theorem claim_C5_witness :
    (∀ v ∈ colVals ⟨2, [[.str "ab", .int 7]]⟩ 0,
      (stringify v).length ≤ colWidthAt ⟨2, [[.str "ab", .int 7]]⟩ 0) ∧
    (isNumericDtype (colVals ⟨2, [[.str "ab", .int 7]]⟩ 1) = true ↔
      ∀ v ∈ colVals ⟨2, [[.str "ab", .int 7]]⟩ 1, isNumLike v = true) :=
  ⟨((claim_C5 "s" ⟨2, [[.str "ab", .int 7]]⟩ (by decide)).1 0 (by decide)).1,
    ((claim_C5 "s" ⟨2, [[.str "ab", .int 7]]⟩ (by decide)).1 1 (by decide)).2.2⟩

/-- Claim C6: in the markdown rendering, each embedded pipe is escaped to
`\|` and each newline (`\n`, `\r` or `\r\n`) becomes the literal `<br>`;
after CRLF/CR normalisation the escaping is the per-character map
`escOneChar`, and the two example cells render as claimed inside the full
table. -/
theorem claim_C6 :
    (∀ s : String,
      (mdEscape s).data = (replCR (replCRLF s.data)).flatMap escOneChar) ∧
    mdEscape "a|b" = "a\\|b" ∧
    mdEscape "line1\nline2" = "line1<br>line2" ∧
    mdEscape "a\rb" = "a<br>b" ∧
    mdEscape "a\r\nb" = "a<br>b" ∧
    stringify (.str "a|b") = "a\\|b" ∧
    stringify (.str "line1\nline2") = "line1<br>line2" ∧
    (extractSheetText "s" ⟨1, [[.str "a|b"]]⟩).markdown =
      "|      |\n| ---- |\n| a\\|b |" ∧
    (extractSheetText "s" ⟨1, [[.str "line1\nline2"]]⟩).markdown =
      "|                |\n| -------------- |\n| line1<br>line2 |" := by
  refine ⟨mdEscape_flatMap, ?_⟩
  decide

/-- Claim C7, counterexample: an infinity cell is NOT treated as empty:
`pd.notna(inf)` is true and `str(inf)` is `"inf"`, so it lands in the flat
list and renders as `inf` in the table, contrary to the claim that every
non-finite float contributes nothing. -/
theorem claim_C7_counterexample :
    (extractSheetText "s" ⟨1, [[.float .inf]]⟩).flat_text = ["inf"] ∧
    (extractSheetText "s" ⟨1, [[.float .inf]]⟩).flat_text ≠ [] ∧
    (extractSheetText "s" ⟨1, [[.float .inf]]⟩).markdown =
      "|     |\n| --: |\n| inf |" := by
  decide

/-- Claim C7, amended: only NaN is treated as empty (no flat entry, blank
padded cell); positive and negative infinity stringify as `"inf"` and
`"-inf"` and appear in both the flat list and the table. -/
theorem claim_C7 :
    stringify (.float .nan) = "" ∧ notna (.float .nan) = false ∧
    stringify (.float .inf) = "inf" ∧ stringify (.float .ninf) = "-inf" ∧
    notna (.float .inf) = true ∧ notna (.float .ninf) = true ∧
    (extractSheetText "s" ⟨1, [[.float .nan]]⟩).flat_text = [] ∧
    (extractSheetText "s" ⟨1, [[.float .nan]]⟩).markdown =
      "|     |\n| --: |\n|     |" ∧
    (extractSheetText "s" ⟨1, [[.float .inf]]⟩).flat_text = ["inf"] ∧
    (extractSheetText "s" ⟨1, [[.float .ninf]]⟩).flat_text = ["-inf"] ∧
    (extractSheetText "s" ⟨1, [[.float .ninf]]⟩).markdown =
      "|      |\n| ---: |\n| -inf |" := by
  decide

/-- Claim C8: every line of the markdown string has the same character
length; header, separator and body cells are padded/justified exactly to
the column width (their rendered length equals the width), and the width
bounds the stringified length of every cell in the column. -/
theorem claim_C8 (name : String) (g : Grid) :
    (∀ l1 ∈ mdLines (extractSheetText name g).markdown,
      ∀ l2 ∈ mdLines (extractSheetText name g).markdown,
        l1.length = l2.length) ∧
    (∀ line ∈ mdLines (extractSheetText name g).markdown,
      line.length = mdLineLen g) ∧
    (∀ j, j < g.ncols → ∀ r ∈ g.rows,
      (stringify (cellAt r j)).length ≤ colWidthAt g j) ∧
    (∀ j, j < g.ncols →
      (pyLjust "" (colWidthAt g j)).length = colWidthAt g j ∧
      (sepCell (colAlign g j) (colWidthAt g j)).length = colWidthAt g j ∧
      ∀ r ∈ g.rows,
        (padCell (colAlign g j) (colWidthAt g j)
          (stringify (cellAt r j))).length = colWidthAt g j) := by
  refine ⟨?_, mdLine_length g, ?_, ?_⟩
  · intro l1 h1 l2 h2
    rw [mdLine_length g l1 h1, mdLine_length g l2 h2]
  · intro j _ r hr
    exact le_trans (le_maxCellLen (List.mem_map.mpr ⟨r, hr, rfl⟩))
      (le_max_right 3 _)
  · intro j _
    refine ⟨?_, sepCell_length _ _ (three_le_colWidthAt g j) (colAlign_ne_center g j),
      ?_⟩
    · rw [pyLjust_length]
      simp
    · intro r hr
      rw [padCell_length _ _ _ (colAlign_ne_center g j)]
      have h1 : (stringify (cellAt r j)).length ≤ colWidthAt g j :=
        le_trans (le_maxCellLen (List.mem_map.mpr ⟨r, hr, rfl⟩)) (le_max_right 3 _)
      omega

/-- Claim C8, witness at a concrete ragged-width grid. -/
theorem claim_C8_witness :
    ∀ l1 ∈ mdLines (extractSheetText "s" ⟨2, [[.str "abcde", .int 7],
      [.str "x", .int 12345678]]⟩).markdown,
    ∀ l2 ∈ mdLines (extractSheetText "s" ⟨2, [[.str "abcde", .int 7],
      [.str "x", .int 12345678]]⟩).markdown, l1.length = l2.length :=
  (claim_C8 "s" ⟨2, [[.str "abcde", .int 7], [.str "x", .int 12345678]]⟩).1

/-- Claim C9: a zero-row grid yields empty `rows` and `flat_text`, and a
markdown of exactly two lines (empty header and separator), with every
column at the minimum width 3. -/
theorem claim_C9 (name : String) (C : Nat) :
    (extractSheetText name ⟨C, []⟩).rows = [] ∧
    (extractSheetText name ⟨C, []⟩).flat_text = [] ∧
    mdLines (extractSheetText name ⟨C, []⟩).markdown =
      [headerRowOf ⟨C, []⟩, sepRowOf ⟨C, []⟩] ∧
    (mdLines (extractSheetText name ⟨C, []⟩).markdown).length = 2 ∧
    (∀ j, j < C → colWidthAt ⟨C, []⟩ j = 3) := by
  refine ⟨rfl, rfl, ?_, ?_, ?_⟩
  · show mdLines (markdownOfGrid ⟨C, []⟩) = _
    rw [mdLines_markdownOfGrid]
    rfl
  · show (mdLines (markdownOfGrid ⟨C, []⟩)).length = 2
    rw [mdLines_markdownOfGrid]
    rfl
  · intro j _
    rfl

/-- Claim C9, witness at 2 columns. -/
theorem claim_C9_witness : colWidthAt ⟨2, []⟩ 0 = 3 ∧
    (mdLines (extractSheetText "s" (⟨2, []⟩ : Grid)).markdown).length = 2 :=
  ⟨(claim_C9 "s" 2).2.2.2.2 0 (by decide), (claim_C9 "s" 2).2.2.2.1⟩

/-- Claim C10: every flat-text entry is the raw `str()` of some present cell
with only surrounding whitespace stripped — no pipe escaping and no `<br>`
substitution — so `"a|b"` and `"line1\nline2"` appear verbatim. -/
theorem claim_C10 :
    (∀ (name : String) (g : Grid), ∀ t ∈ (extractSheetText name g).flat_text,
      ∃ r ∈ g.rows, ∃ j, j < g.ncols ∧ notna (cellAt r j) = true ∧
        t = pyStripS (pyStrOfVal (cellAt r j))) ∧
    (extractSheetText "s" ⟨1, [[.str "a|b"]]⟩).flat_text = ["a|b"] ∧
    (extractSheetText "s" ⟨1, [[.str "line1\nline2"]]⟩).flat_text =
      ["line1\nline2"] ∧
    (extractSheetText "s" ⟨1, [[.str "  x  "]]⟩).flat_text = ["x"] := by
  refine ⟨?_, by decide⟩
  intro name g t ht
  rcases mem_flatCands g ((flatOf_mem_iff g t).mp ht) with
    ⟨r, hr, j, hj, hn, heq, _⟩
  exact ⟨r, hr, j, hj, hn, heq⟩

/-- Claim C10, witness: the pipe-bearing entry traced to its cell. -/
theorem claim_C10_witness :
    ∃ r ∈ (⟨1, [[.str "a|b"]]⟩ : Grid).rows, ∃ j, j < 1 ∧
      notna (cellAt r j) = true ∧ "a|b" = pyStripS (pyStrOfVal (cellAt r j)) :=
  claim_C10.1 "s" ⟨1, [[.str "a|b"]]⟩ "a|b" (by decide)
